import Mathlib

/-!
Verification of the maze-game core (maze_game.py, Raycasting_test.py,
maze_generator.py) against its natural-language specification.

Shallow embedding conventions:
* the 2D character grid `MAP` (a Python list of rows of characters) is
  `Grid := List (List Char)`; `'#'` is WALL and `'.'` is FLOOR;
* Python floats are modelled as exact rationals `ℚ`; `int(q)` (truncation
  toward zero) is `pyInt`;
* the maze under construction in maze_generator.py is modelled by the set of
  its FLOOR cells, a `Finset (ℤ × ℤ)` of `(x, y)` coordinates, together with
  the (symbolic) width and height; a cell inside the rectangle is `'#'` iff it
  is not in the set (every read the generator performs is bounds-checked
  first, so the representation is exact);
* the Python `random` module is modelled by an oracle `rng : ℕ → ℕ` and a
  draw counter: `random.choice(l)` reads `l[rng k % len l]`,
  `random.randint(a, b)` reads `a + rng k % (b - a + 1)` and fails (raises
  `ValueError`, modelled as `none`) when the range `[a, b]` is empty, and the
  Bernoulli draw `random.random() < 0.3` reads `rng k % 10 < 3`; all theorems
  about random code quantify over every oracle;
* code that can raise returns `Except String _` or `Option _`.
-/

set_option maxRecDepth 40000

/-! ### Grid basics (game_map.py / maze_game.py) -/

/-- The map grid: a list of rows, each a list of characters.
`'#'` is a wall, `'.'` is floor. -/
abbrev Grid := List (List Char)

/-- `MAP_WIDTH = len(MAP[0])` (maze_game.py line 55). Python raises on an
empty `MAP`; the game only ever builds nonempty grids, and the theorems that
need it assume `wellFormed`. -/
def MAP_WIDTH (g : Grid) : ℤ := (g.headD []).length

/-- `MAP_HEIGHT = len(MAP)` (maze_game.py line 56). -/
def MAP_HEIGHT (g : Grid) : ℤ := g.length

/-- `MAP[row][col]` for indices already checked to be nonnegative:
`none` models an `IndexError` on a too-short row. -/
def cellAt (g : Grid) (row col : ℤ) : Option Char :=
  match g[row.toNat]? with
  | none => none
  | some r => r[col.toNat]?

/-- Python `int(q)` on a float: truncation toward zero. -/
def pyInt (q : ℚ) : ℤ := q.num.tdiv q.den

/-- The grid is rectangular (every row as long as row 0) and binary (only
wall and floor characters), as every grid produced by the generator is. -/
def wellFormed (g : Grid) : Prop :=
  (∀ row ∈ g, (row.length : ℤ) = MAP_WIDTH g) ∧
    ∀ row ∈ g, ∀ c ∈ row, c = '#' ∨ c = '.'

instance (g : Grid) : Decidable (wellFormed g) := by
  unfold wellFormed; infer_instance

/-! ### Collision system (maze_game.py lines 107-160, Raycasting_test.py
lines 208-230) -/

/-- `MazeGame.is_wall_at_position` (maze_game.py lines 107-116): truncate the
position to a tile; out-of-bounds tiles count as walls. -/
def is_wall_at_position (g : Grid) (TILE_SIZE x y : ℚ) : Except String Bool :=
  if 0 ≤ pyInt (y / TILE_SIZE) ∧ pyInt (y / TILE_SIZE) < MAP_HEIGHT g ∧
      0 ≤ pyInt (x / TILE_SIZE) ∧ pyInt (x / TILE_SIZE) < MAP_WIDTH g then
    match cellAt g (pyInt (y / TILE_SIZE)) (pyInt (x / TILE_SIZE)) with
    | some c => .ok (c == '#')
    | none => .error "IndexError"
  else
    .ok true

/-- `self.player_radius = 8` (maze_game.py line 70). -/
def player_radius : ℚ := 8

/-- The nine sample points of `MazeGame.check_collision`
(maze_game.py lines 122-132). -/
def test_points (x y radius : ℚ) : List (ℚ × ℚ) :=
  [(x, y),
   (x - radius, y), (x + radius, y), (x, y - radius), (x, y + radius),
   (x - radius * 0.7, y - radius * 0.7), (x + radius * 0.7, y - radius * 0.7),
   (x - radius * 0.7, y + radius * 0.7), (x + radius * 0.7, y + radius * 0.7)]

/-- The `for test_x, test_y in test_points` loop of `check_collision`,
returning `true` at the first wall sample. -/
def collide_points (g : Grid) (T : ℚ) : List (ℚ × ℚ) → Except String Bool
  | [] => .ok false
  | p :: rest =>
    match is_wall_at_position g T p.1 p.2 with
    | .error e => .error e
    | .ok true => .ok true
    | .ok false => collide_points g T rest

/-- `MazeGame.check_collision` (maze_game.py lines 118-138). -/
def check_collision (g : Grid) (T radius x y : ℚ) : Except String Bool :=
  collide_points g T (test_points x y radius)

/-- `MazeGame.move_player` (maze_game.py lines 140-160): try the full move,
then the x-only move, then the y-only move, else stay; result is the resolved
position and the returned boolean. -/
def move_player (g : Grid) (T radius px py nx ny : ℚ) :
    Except String ((ℚ × ℚ) × Bool) :=
  match check_collision g T radius nx ny with
  | .error e => .error e
  | .ok false => .ok ((nx, ny), true)
  | .ok true =>
    match check_collision g T radius nx py with
    | .error e => .error e
    | .ok false => .ok ((nx, py), true)
    | .ok true =>
      match check_collision g T radius px ny with
      | .error e => .error e
      | .ok false => .ok ((px, ny), true)
      | .ok true => .ok ((px, py), false)

/-- Spec §4.2 `movePlayer`, written from the spec's words: accept the
proposed point if valid, else `(proposed.x, current.y)`, else
`(current.x, proposed.y)`, else the unchanged current position. -/
def movePlayerSpec (valid : ℚ → ℚ → Bool) (px py nx ny : ℚ) : ℚ × ℚ :=
  if valid nx ny then (nx, ny)
  else if valid nx py then (nx, py)
  else if valid px ny then (px, ny)
  else (px, py)

/-- The validity test `move_player` is driven by: not colliding. -/
def validB (g : Grid) (T radius x y : ℚ) : Bool :=
  match check_collision g T radius x y with
  | .ok b => !b
  | .error _ => false

/-- The five sample points of `is_valid_position`
(Raycasting_test.py lines 210-218), `margin = 8`. -/
def positions_to_check (x y : ℚ) : List (ℚ × ℚ) :=
  [(x, y), (x - 8, y), (x + 8, y), (x, y - 8), (x, y + 8)]

/-- The sample loop of `is_valid_position` (Raycasting_test.py lines
220-229): any out-of-bounds or wall sample invalidates. -/
def valid_points (g : Grid) (T : ℚ) : List (ℚ × ℚ) → Except String Bool
  | [] => .ok true
  | p :: rest =>
    if 0 ≤ pyInt (p.2 / T) ∧ pyInt (p.2 / T) < MAP_HEIGHT g ∧
        0 ≤ pyInt (p.1 / T) ∧ pyInt (p.1 / T) < MAP_WIDTH g then
      match cellAt g (pyInt (p.2 / T)) (pyInt (p.1 / T)) with
      | some c => if c == '#' then .ok false else valid_points g T rest
      | none => .error "IndexError"
    else
      .ok false

/-- `is_valid_position` (Raycasting_test.py lines 208-230). -/
def is_valid_position (g : Grid) (T x y : ℚ) : Except String Bool :=
  valid_points g T (positions_to_check x y)

/-- Spec §4.2's per-sample condition, written from the spec's words: the
sample maps (via truncating division by tile size) to an in-bounds FLOOR
cell. -/
def inBoundsFloorTile (g : Grid) (T : ℚ) (p : ℚ × ℚ) : Prop :=
  0 ≤ pyInt (p.2 / T) ∧ pyInt (p.2 / T) < MAP_HEIGHT g ∧
    0 ≤ pyInt (p.1 / T) ∧ pyInt (p.1 / T) < MAP_WIDTH g ∧
    cellAt g (pyInt (p.2 / T)) (pyInt (p.1 / T)) = some '.'

instance (g : Grid) (T : ℚ) (p : ℚ × ℚ) : Decidable (inBoundsFloorTile g T p) := by
  unfold inBoundsFloorTile; infer_instance

/-! ### Exploration tracker (maze_game.py lines 162-175,
Raycasting_test.py lines 88-101) -/

/-- `VISION_RANGE = 6` (maze_game.py line 19). -/
def VISION_RANGE : ℤ := 6

/-- `MazeGame.update_explored_tiles` (maze_game.py lines 162-175): the double
loop over `dx, dy ∈ [-R, R]` inserting every in-bounds tile with
`sqrt(dx² + dy²) ≤ R`, written as a set union.  For integer `dx`, `dy`, `R`
the float test `math.sqrt(dx*dx + dy*dy) <= R` is exactly
`dx² + dy² ≤ R²`. -/
def update_explored_tiles (W H R : ℤ) (pt : ℤ × ℤ) (explored : Finset (ℤ × ℤ)) :
    Finset (ℤ × ℤ) :=
  explored ∪
    ((Finset.Icc (-R) R ×ˢ Finset.Icc (-R) R).filter
      (fun d => 0 ≤ pt.2 + d.2 ∧ pt.2 + d.2 < H ∧ 0 ≤ pt.1 + d.1 ∧
        pt.1 + d.1 < W ∧ d.1 ^ 2 + d.2 ^ 2 ≤ R ^ 2)).image
      (fun d => (pt.1 + d.1, pt.2 + d.2))

/-- `total_explorable = sum(1 for row in MAP for cell in row if cell == '.')`
(maze_game.py line 371). -/
def total_explorable (g : Grid) : ℕ :=
  (g.map (fun row => row.countP (fun c => c == '.'))).sum

/-- `exploration_percentage = len(explored_tiles) / total_explorable if
total_explorable > 0 else 0` (maze_game.py line 372). -/
def exploration_percentage (g : Grid) (explored : Finset (ℤ × ℤ)) : ℚ :=
  if 0 < total_explorable g then (explored.card : ℚ) / (total_explorable g : ℚ)
  else 0

/-- The set of FLOOR cells of the grid, as `(x, y)` tile coordinates. -/
def floorTiles (g : Grid) : Finset (ℤ × ℤ) :=
  ((Finset.range (g.headD []).length ×ˢ Finset.range g.length).filter
    (fun p => (g.getD p.2 []).getD p.1 '#' == '.')).image
    (fun p => ((p.1 : ℤ), (p.2 : ℤ)))

/-- Spec §4.3's exploration percentage, written from the spec's words:
`|explored ∩ floorTiles| / |floorTiles|`. -/
def exploration_percentage_spec (g : Grid) (explored : Finset (ℤ × ℤ)) : ℚ :=
  ((explored ∩ floorTiles g).card : ℚ) / ((floorTiles g).card : ℚ)

/-- `explored_tiles.clear()` inside `regenerate_maze`
(Raycasting_test.py line 253). -/
def regenerate_maze_explored (_explored : Finset (ℤ × ℤ)) : Finset (ℤ × ℤ) :=
  (∅ : Finset (ℤ × ℤ))

/-- `explored_tiles.clear()` inside `start_new_game`
(Raycasting_test.py line 273). -/
def start_new_game_explored (_explored : Finset (ℤ × ℤ)) : Finset (ℤ × ℤ) :=
  (∅ : Finset (ℤ × ℤ))

/-! ### Ray caster: fisheye correction (maze_game.py lines 177-219) -/

/-- `FOV = math.pi / 3` (maze_game.py line 14). -/
noncomputable def FOV : ℝ := Real.pi / 3

/-- `HALF_FOV = FOV / 2` (maze_game.py line 15). -/
noncomputable def HALF_FOV : ℝ := FOV / 2

/-- `CASTED_RAYS = 120` (maze_game.py line 16). -/
def CASTED_RAYS : ℕ := 120

/-- `STEP_ANGLE = FOV / CASTED_RAYS` (maze_game.py line 17). -/
noncomputable def STEP_ANGLE : ℝ := FOV / CASTED_RAYS

/-- The angle of ray number `ray` in `cast_rays` (maze_game.py lines 179 and
219): `start_angle = player_angle - HALF_FOV` stepped by `STEP_ANGLE` per
ray. -/
noncomputable def start_angle (player_angle : ℝ) (ray : ℕ) : ℝ :=
  player_angle - HALF_FOV + ray * STEP_ANGLE

/-- `corrected_distance = wall_distance * math.cos(self.player_angle -
start_angle)` (maze_game.py line 208). -/
noncomputable def corrected_distance (player_angle ray_angle wall_distance : ℝ) : ℝ :=
  wall_distance * Real.cos (player_angle - ray_angle)

/-! ### The MazeGame class surface and its run loop (maze_game.py) -/

/-- The methods defined on `class MazeGame` (maze_game.py lines 21-417),
in source order. -/
def mazeGameMethods : List String :=
  ["__init__", "is_tile_visible", "find_spawn_position", "is_wall_at_position",
   "check_collision", "move_player", "update_explored_tiles", "cast_rays",
   "draw_map", "calculate_score", "save_and_exit", "run"]

/-- The `self.`-methods invoked by the body of `MazeGame.run`
(maze_game.py lines 314-416). -/
def runLoopCalledMethods : List String :=
  ["save_and_exit", "is_valid_position", "update_explored_tiles",
   "calculate_score", "cast_rays", "draw_map"]

/-- Python attribute lookup on a `MazeGame` instance: a missing method is an
`AttributeError` (`none`). -/
def getattrMazeGame (name : String) : Option String :=
  if name ∈ mazeGameMethods then some name else none

/-- The movement part of one `MazeGame.run` tick (maze_game.py lines
341-364): when a movement key is down the loop computes a proposed position
and evaluates `self.is_valid_position(new_x, new_y)`, which requires the
attribute to exist. -/
def runMovementTick (moveKeyDown : Bool) (pos proposed : ℚ × ℚ) :
    Except String (ℚ × ℚ) :=
  if moveKeyDown then
    match getattrMazeGame "is_valid_position" with
    | some _ => .ok proposed
    | none => .error "AttributeError"
  else
    .ok pos

/-! ### Score and session end (maze_game.py lines 266-312) -/

/-- `MazeGame.calculate_score` (maze_game.py lines 266-272):
`max(0, 1000 - elapsed) + len(explored_tiles) * 10`. -/
def calculate_score (elapsed : ℤ) (tiles_explored : ℕ) : ℤ :=
  max 0 (1000 - elapsed) + (tiles_explored : ℤ) * 10

/-- The `result_data` record `save_and_exit` writes for the menu
(maze_game.py lines 280-288). -/
structure ResultData where
  completed : Bool
  score : ℤ
  completion_time : ℚ
  tiles_explored : ℕ
  player_name : String
  maze_size : String
  saved_to_db : Bool

/-- `MazeGame.save_and_exit` (maze_game.py lines 274-312).  The external
persistence collaborator is abstracted by its authentication state and the
outcomes of its `save_game_progress` and `end_game_session` calls (an
`Except.error` models the call raising).  The `try/except` around the two
calls means a failure only clears `saved_to_db`; the function always reaches
the file write and `sys.exit(0)`, which the second component records. -/
def save_and_exit (db_authenticated : Bool)
    (save_game_progress end_game_session : Except String Unit)
    (completed : Bool) (elapsed : ℤ) (completion_time : ℚ)
    (tiles_explored : ℕ) (player_name maze_size : String) :
    ResultData × Bool :=
  let final_score := calculate_score elapsed tiles_explored
  let base : ResultData :=
    ⟨completed, final_score, completion_time, tiles_explored, player_name,
      maze_size, false⟩
  if db_authenticated then
    match save_game_progress with
    | .error _ => (base, true)
    | .ok _ =>
      match end_game_session with
      | .error _ => (base, true)
      | .ok _ => ({ base with saved_to_db := true }, true)
  else
    (base, true)

/-- The gameplay-result fields of `result_data`: everything except the
`saved_to_db` flag. -/
def coreResult (r : ResultData) : Bool × ℤ × ℚ × ℕ × String × String :=
  (r.completed, r.score, r.completion_time, r.tiles_explored, r.player_name,
    r.maze_size)

/-! ### Maze generator (maze_generator.py) -/

/-- The odd-coercion of `MazeGenerator.__init__` (maze_generator.py lines
7-8): `width if width % 2 == 1 else width + 1`. -/
def coerceOdd (n : ℤ) : ℤ := if n % 2 = 1 then n else n + 1

/-- The cells of the `width × height` grid. -/
def rectZ (w h : ℤ) : Finset (ℤ × ℤ) := Finset.Icc 0 (w - 1) ×ˢ Finset.Icc 0 (h - 1)

/-- The number of wall cells, used as the termination measure of the carve
loop. -/
def wallsIn (w h : ℤ) (m : Finset (ℤ × ℤ)) : ℕ :=
  ((rectZ w h).filter (fun p => p ∉ m)).card

/-- `directions = [(2, 0), (0, 2), (-2, 0), (0, -2)]`
(maze_generator.py line 25). -/
def directions : List (ℤ × ℤ) := [(2, 0), (0, 2), (-2, 0), (0, -2)]

/-- The `neighbors` list built at maze_generator.py lines 31-39: for each
direction, the two-away cell when it is strictly inside the border and still
a wall, paired with the between cell `(current + d // 2)` carved at line
48. -/
def neighborsOf (w h : ℤ) (m : Finset (ℤ × ℤ)) (c : ℤ × ℤ) :
    List ((ℤ × ℤ) × (ℤ × ℤ)) :=
  directions.filterMap (fun d =>
    if 0 < c.1 + d.1 ∧ c.1 + d.1 < w - 1 ∧ 0 < c.2 + d.2 ∧ c.2 + d.2 < h - 1 ∧
        (c.1 + d.1, c.2 + d.2) ∉ m then
      some ((c.1 + d.1, c.2 + d.2), (c.1 + d.1 / 2, c.2 + d.2 / 2))
    else none)

/-- The `while stack:` loop of `MazeGenerator.generate_maze`
(maze_generator.py lines 27-54).  `random.choice(neighbors)` is
`neighbors[rng k % len(neighbors)]`.  The loop terminates because each
iteration either carves a previously-wall cell or pops the stack; the fuel is
an upper bound on that measure, proved never to run out. -/
def carveLoop (w h : ℤ) (rng : ℕ → ℕ) :
    ℕ → Finset (ℤ × ℤ) → List (ℤ × ℤ) → ℕ → Option (Finset (ℤ × ℤ) × ℕ)
  | 0, _, _, _ => none
  | _ + 1, m, [], k => some (m, k)
  | fuel + 1, m, c :: rest, k =>
    match neighborsOf w h m c with
    | [] => carveLoop w h rng fuel m rest k
    | nb :: nbs =>
      let chosen := (nb :: nbs).getD (rng k % (nb :: nbs).length) nb
      carveLoop w h rng fuel (insert chosen.2 (insert chosen.1 m))
        (chosen.1 :: c :: rest) (k + 1)

/-- The cells cleared by `MazeGenerator.create_starting_area`
(maze_generator.py lines 62-70): the 3×3 block around `(1, 1)`, kept
in-bounds and off the border. -/
def startCells (w h : ℤ) : Finset (ℤ × ℤ) :=
  (Finset.Icc (0 : ℤ) 2 ×ˢ Finset.Icc (0 : ℤ) 2).filter
    (fun p => (0 ≤ p.1 ∧ p.1 < w ∧ 0 ≤ p.2 ∧ p.2 < h) ∧
      ¬(p.1 = 0 ∨ p.2 = 0 ∨ p.1 = w - 1 ∨ p.2 = h - 1))

/-- `MazeGenerator.create_starting_area` as a set update. -/
def create_starting_area (w h : ℤ) (m : Finset (ℤ × ℤ)) : Finset (ℤ × ℤ) :=
  m ∪ startCells w h

/-- `[(0, 1), (1, 0), (0, -1), (-1, 0)]` at maze_generator.py line 85,
as `(dx, dy)` pairs. -/
def adjacent_dirs : List (ℤ × ℤ) := [(0, 1), (1, 0), (0, -1), (-1, 0)]

/-- The value of a successful `random.randint(lo, hi)` under oracle draw
`r`: `lo + r % (hi - lo + 1)`, which ranges over `[lo, hi]`. -/
def randintDraw (lo hi : ℤ) (r : ℕ) : ℤ := lo + (r : ℤ) % (hi - lo + 1)

/-- One iteration of the `add_random_openings` loop (maze_generator.py lines
76-91).  `random.randint(2, w - 3)` raises `ValueError` (`none`) when
`2 > w - 3`; otherwise it draws `randintDraw`.  The Bernoulli draw is
consumed only when the wall has at least two adjacent paths, mirroring
Python's short-circuit of `adjacent_paths >= 2 and random.random() < 0.3`. -/
def openingStep (w h : ℤ) (rng : ℕ → ℕ) (m : Finset (ℤ × ℤ)) (k : ℕ) :
    Option (Finset (ℤ × ℤ) × ℕ) :=
  if 2 ≤ w - 3 ∧ 2 ≤ h - 3 then
    if (randintDraw 2 (w - 3) (rng k), randintDraw 2 (h - 3) (rng (k + 1))) ∉ m then
      if 2 ≤ adjacent_dirs.countP (fun d =>
          decide ((randintDraw 2 (w - 3) (rng k) + d.1,
            randintDraw 2 (h - 3) (rng (k + 1)) + d.2) ∈ m)) then
        if rng (k + 2) % 10 < 3 then
          some (insert (randintDraw 2 (w - 3) (rng k),
            randintDraw 2 (h - 3) (rng (k + 1))) m, k + 3)
        else some (m, k + 3)
      else some (m, k + 2)
    else some (m, k + 2)
  else none

/-- The `for _ in range(num_openings)` loop of
`MazeGenerator.add_random_openings` (maze_generator.py lines 72-91). -/
def add_random_openings (w h : ℤ) (rng : ℕ → ℕ) :
    ℕ → Finset (ℤ × ℤ) → ℕ → Option (Finset (ℤ × ℤ) × ℕ)
  | 0, m, k => some (m, k)
  | n + 1, m, k =>
    match openingStep w h rng m k with
    | none => none
    | some (m', k') => add_random_openings w h rng n m' k'

/-- `num_openings = max(1, (width * height) // 100)`
(maze_generator.py line 74). -/
def num_openings (w h : ℤ) : ℕ := max 1 ((w * h) / 100).toNat

/-- Fuel bound for the carve loop: twice the cell count plus two, strictly
above the initial measure `2 * wallsIn + |stack|`. -/
def carveFuel (w h : ℤ) : ℕ := 2 * (w.toNat * h.toNat) + 2

/-- The full generation pipeline run by `MazeGenerator.__init__`
(maze_generator.py lines 5-60): odd-coercion, all-wall initialization with
`(1, 1)` carved and pushed, the backtracking carve loop, the starting-area
clearing, and the random extra openings.  `none` models the constructor
raising. -/
def generate_maze (width height : ℤ) (rng : ℕ → ℕ) : Option (Finset (ℤ × ℤ)) :=
  let w := coerceOdd width
  let h := coerceOdd height
  match carveLoop w h rng (carveFuel w h) {(1, 1)} [(1, 1)] 0 with
  | none => none
  | some (m, k) =>
    match add_random_openings w h rng (num_openings w h) (create_starting_area w h m) k with
    | none => none
    | some (m', _) => some m'

/-- Python `range(lo, hi)` as a list of integers. -/
def intRange (lo hi : ℤ) : List ℤ :=
  (List.range (hi - lo).toNat).map (fun i : ℕ => lo + (i : ℤ))

/-- `MazeGenerator.get_spawn_position` (maze_generator.py lines 102-109):
the first floor cell scanning `y in range(1, min(4, height - 1))`,
`x in range(1, min(4, width - 1))`, else `(1, 1)`. -/
def get_spawn_position (w h : ℤ) (m : Finset (ℤ × ℤ)) : ℤ × ℤ :=
  match ((intRange 1 (min 4 (h - 1))).flatMap (fun y =>
      (intRange 1 (min 4 (w - 1))).map (fun x => (x, y)))).find?
      (fun p => decide (p ∈ m)) with
  | some p => p
  | none => (1, 1)

/-! ### Floor adjacency and reachability (spec §8, maze validity) -/

/-- Orthogonal adjacency of two tiles. -/
def Adj (p q : ℤ × ℤ) : Prop :=
  (p.1 = q.1 ∧ (p.2 = q.2 + 1 ∨ q.2 = p.2 + 1)) ∨
    (p.2 = q.2 ∧ (p.1 = q.1 + 1 ∨ q.1 = p.1 + 1))

/-- `b` is reachable from `a` by a path of orthogonally adjacent cells all of
which (after the start) lie in the floor set `m`. -/
def ReachableIn (m : Finset (ℤ × ℤ)) (a b : ℤ × ℤ) : Prop :=
  Relation.ReflTransGen (fun p q => Adj p q ∧ q ∈ m) a b

/-! ### Concrete inputs used by witnesses and counterexamples -/

/-- A 3×3 grid whose only floor cell is the centre. -/
def mapG0 : Grid := [['#', '#', '#'], ['#', '.', '#'], ['#', '#', '#']]

/-- The explored set after one exploration update from the centre tile of
`mapG0`: all nine tiles, walls included. -/
def exploredG0 : Finset (ℤ × ℤ) :=
  update_explored_tiles 3 3 VISION_RANGE (1, 1) ∅

/-- A 2×2 all-floor grid. -/
def mapG1 : Grid := [['.', '.'], ['.', '.']]

/-- The all-zero random oracle. -/
def rng0 : ℕ → ℕ := fun _ => 0

/-- The floor set of the maze generated from requested dimensions 4×4
(coerced to 5×5) under the all-zero oracle: the whole interior. -/
def m4 : Finset (ℤ × ℤ) :=
  {(1, 1), (2, 1), (3, 1), (1, 2), (2, 2), (3, 2), (1, 3), (2, 3), (3, 3)}

/-! ### Helper lemmas: the collision sampling loops never error on a
well-formed grid, and compute the all-samples-floor condition -/

theorem cellAt_of_bounds {g : Grid} (wf : wellFormed g) {row col : ℤ}
    (hr : 0 ≤ row) (hr2 : row < MAP_HEIGHT g) (hc : 0 ≤ col)
    (hc2 : col < MAP_WIDTH g) :
    ∃ c, cellAt g row col = some c ∧ (c = '#' ∨ c = '.') := by
  have hrn : row.toNat < g.length := by
    unfold MAP_HEIGHT at hr2; omega
  have hrow : g[row.toNat]? = some g[row.toNat] := List.getElem?_eq_getElem hrn
  have hmem : g[row.toNat] ∈ g := List.getElem_mem hrn
  have hlen : (g[row.toNat].length : ℤ) = MAP_WIDTH g := wf.1 _ hmem
  have hcn : col.toNat < g[row.toNat].length := by omega
  have hcol : g[row.toNat][col.toNat]? = some g[row.toNat][col.toNat] :=
    List.getElem?_eq_getElem hcn
  refine ⟨g[row.toNat][col.toNat], ?_, ?_⟩
  · unfold cellAt
    rw [hrow]
    exact hcol
  · exact wf.2 _ hmem _ (List.getElem_mem hcn)

theorem is_wall_at_position_eq {g : Grid} (wf : wellFormed g) (T : ℚ)
    (p : ℚ × ℚ) :
    is_wall_at_position g T p.1 p.2 =
      .ok (!(decide (inBoundsFloorTile g T p))) := by
  unfold is_wall_at_position
  split
  · rename_i hb
    obtain ⟨hr, hr2, hc, hc2⟩ := hb
    obtain ⟨c, hcell, hc89⟩ := cellAt_of_bounds wf hr hr2 hc hc2
    rw [hcell]
    rcases hc89 with h | h <;> subst h <;>
      simp [inBoundsFloorTile, hcell, hr, hr2, hc, hc2]
  · rename_i hb
    have hnot : ¬ inBoundsFloorTile g T p := fun h =>
      hb ⟨h.1, h.2.1, h.2.2.1, h.2.2.2.1⟩
    simp [hnot]

theorem collide_points_eq {g : Grid} (wf : wellFormed g) (T : ℚ)
    (ps : List (ℚ × ℚ)) :
    collide_points g T ps = .ok (!(decide (∀ p ∈ ps, inBoundsFloorTile g T p))) := by
  induction ps with
  | nil => simp [collide_points]
  | cons p rest ih =>
    unfold collide_points
    rw [is_wall_at_position_eq wf]
    by_cases hp : inBoundsFloorTile g T p
    · simp [hp, ih]
    · simp [hp]

theorem valid_points_eq {g : Grid} (wf : wellFormed g) (T : ℚ)
    (ps : List (ℚ × ℚ)) :
    valid_points g T ps = .ok (decide (∀ p ∈ ps, inBoundsFloorTile g T p)) := by
  induction ps with
  | nil => simp [valid_points]
  | cons p rest ih =>
    unfold valid_points
    split
    · rename_i hb
      obtain ⟨hr, hr2, hc, hc2⟩ := hb
      obtain ⟨c, hcell, hc89⟩ := cellAt_of_bounds wf hr hr2 hc hc2
      rw [hcell]
      rcases hc89 with h | h <;> subst h
      · have hp' : ¬ inBoundsFloorTile g T p := by
          unfold inBoundsFloorTile
          rw [hcell]
          simp
        simp [hp']
      · have hp' : inBoundsFloorTile g T p :=
          ⟨hr, hr2, hc, hc2, hcell⟩
        simp [hp', ih]
    · rename_i hb
      have hp' : ¬ inBoundsFloorTile g T p := fun h =>
        hb ⟨h.1, h.2.1, h.2.2.1, h.2.2.2.1⟩
      simp [hp']

/-! ### Claim C4: wall-sliding priority of `move_player` -/

/-- C4: for every current and proposed position, `move_player` returns the
proposed position when it is valid, else `(proposed.x, current.y)` if valid,
else `(current.x, proposed.y)` if valid, else the unchanged current position,
in exactly that priority order, and never any other result. -/
theorem claim_C4 (g : Grid) (T radius px py nx ny : ℚ) (wf : wellFormed g) :
    move_player g T radius px py nx ny =
      .ok (movePlayerSpec (validB g T radius) px py nx ny,
        (validB g T radius nx ny || validB g T radius nx py ||
          validB g T radius px ny)) ∧
    movePlayerSpec (validB g T radius) px py nx ny ∈
      [(nx, ny), (nx, py), (px, ny), (px, py)] := by
  constructor
  · have h1 := collide_points_eq wf T (test_points nx ny radius)
    have h2 := collide_points_eq wf T (test_points nx py radius)
    have h3 := collide_points_eq wf T (test_points px ny radius)
    unfold move_player movePlayerSpec validB check_collision
    rw [h1, h2, h3]
    cases hd1 : decide (∀ p ∈ test_points nx ny radius, inBoundsFloorTile g T p) <;>
      cases hd2 : decide (∀ p ∈ test_points nx py radius, inBoundsFloorTile g T p) <;>
        cases hd3 : decide (∀ p ∈ test_points px ny radius, inBoundsFloorTile g T p) <;>
          simp [hd1, hd2, hd3]
  · unfold movePlayerSpec
    split_ifs <;> simp

/-- C4 witness: on the all-floor 2×2 grid with unit tile size, moving from
the corner of the grid. -/
theorem claim_C4_witness :
    wellFormed mapG1 ∧
    (move_player mapG1 1 8 0 0 1 1 =
        .ok (movePlayerSpec (validB mapG1 1 8) 0 0 1 1,
          (validB mapG1 1 8 1 1 || validB mapG1 1 8 1 0 ||
            validB mapG1 1 8 0 1)) ∧
      movePlayerSpec (validB mapG1 1 8) 0 0 1 1 ∈
        [((1 : ℚ), (1 : ℚ)), (1, 0), (0, 1), (0, 0)]) :=
  ⟨by decide, claim_C4 mapG1 1 8 0 0 1 1 (by decide)⟩

/-! ### Claim C7: out-of-bounds positions are blocked, never errors -/

/-- C7: a query point whose truncated tile coordinate is out of bounds is
reported as a wall by `is_wall_at_position`, as a collision by
`check_collision` and as invalid by `is_valid_position`, with no error; and
on a well-formed grid position validity is exactly "every sampled point maps
to an in-bounds FLOOR cell". -/
theorem claim_C7 :
    (∀ (g : Grid) (T radius x y : ℚ),
      ¬(0 ≤ pyInt (y / T) ∧ pyInt (y / T) < MAP_HEIGHT g ∧
          0 ≤ pyInt (x / T) ∧ pyInt (x / T) < MAP_WIDTH g) →
        is_wall_at_position g T x y = .ok true ∧
        check_collision g T radius x y = .ok true ∧
        is_valid_position g T x y = .ok false) ∧
    (∀ (g : Grid) (T x y : ℚ), wellFormed g →
      (is_valid_position g T x y = .ok true ↔
        ∀ p ∈ positions_to_check x y, inBoundsFloorTile g T p)) ∧
    (∀ (g : Grid) (T radius x y : ℚ), wellFormed g →
      (check_collision g T radius x y = .ok false ↔
        ∀ p ∈ test_points x y radius, inBoundsFloorTile g T p)) := by
  refine ⟨?_, ?_, ?_⟩
  · intro g T radius x y hb
    have hw : is_wall_at_position g T x y = .ok true := by
      unfold is_wall_at_position
      rw [if_neg hb]
    refine ⟨hw, ?_, ?_⟩
    · simp [check_collision, test_points, collide_points, hw]
    · simp [is_valid_position, positions_to_check, valid_points, hb]
  · intro g T x y wf
    simp [is_valid_position, valid_points_eq wf]
  · intro g T radius x y wf
    simp [check_collision, collide_points_eq wf]

/-- C7 witness: the point `(-20, -20)` with unit tile size is blocked on the
2×2 grid, and the validity characterisation at the origin. -/
theorem claim_C7_witness :
    (is_wall_at_position mapG1 1 (-20) (-20) = .ok true ∧
      check_collision mapG1 1 8 (-20) (-20) = .ok true ∧
      is_valid_position mapG1 1 (-20) (-20) = .ok false) ∧
    (is_valid_position mapG1 1 0 0 = .ok true ↔
      ∀ p ∈ positions_to_check 0 0, inBoundsFloorTile mapG1 1 p) ∧
    (check_collision mapG1 1 8 0 0 = .ok false ↔
      ∀ p ∈ test_points 0 0 8, inBoundsFloorTile mapG1 1 p) :=
  ⟨claim_C7.1 mapG1 1 8 (-20) (-20) (by norm_num [pyInt]),
   claim_C7.2.1 mapG1 1 0 0 (by decide),
   claim_C7.2.2 mapG1 1 8 0 0 (by decide)⟩

/-! ### Claim C3: the run loop's movement branch calls a missing method -/

/-- C3: `MazeGame.run` validates movements through
`self.is_valid_position`, which is not a method of the class, so every tick
with a movement input raises `AttributeError`; `move_player` is never called
by the run loop. -/
theorem claim_C3 :
    (∀ pos proposed : ℚ × ℚ,
      runMovementTick true pos proposed = .error "AttributeError") ∧
    "is_valid_position" ∉ mazeGameMethods ∧
    "is_valid_position" ∈ runLoopCalledMethods ∧
    "move_player" ∈ mazeGameMethods ∧
    "move_player" ∉ runLoopCalledMethods := by
  refine ⟨?_, by decide, by decide, by decide, by decide⟩
  intro pos proposed
  have h : getattrMazeGame "is_valid_position" = none := by decide
  simp [runMovementTick, h]

/-! ### Claim C8: fisheye correction -/

/-- C8: the corrected depth is the raw depth times
`cos(playerAngle - rayAngle)`, and for the centre ray
(`ray = CASTED_RAYS / 2`, whose angle is the player's heading) the corrected
depth equals the raw depth. -/
theorem claim_C8 :
    (∀ player_angle ray_angle wall_distance : ℝ,
      corrected_distance player_angle ray_angle wall_distance =
        wall_distance * Real.cos (player_angle - ray_angle)) ∧
    (∀ player_angle : ℝ,
      start_angle player_angle (CASTED_RAYS / 2) = player_angle) ∧
    (∀ player_angle wall_distance : ℝ,
      corrected_distance player_angle
        (start_angle player_angle (CASTED_RAYS / 2)) wall_distance =
        wall_distance) := by
  have hmid : ∀ pa : ℝ, start_angle pa (CASTED_RAYS / 2) = pa := by
    intro pa
    show pa - HALF_FOV + ((60 : ℕ) : ℝ) * STEP_ANGLE = pa
    unfold HALF_FOV STEP_ANGLE FOV CASTED_RAYS
    push_cast
    ring
  refine ⟨fun _ _ _ => rfl, hmid, ?_⟩
  intro pa d
  rw [hmid]
  show d * Real.cos (pa - pa) = d
  rw [sub_self, Real.cos_zero, mul_one]

/-! ### Claim C9: exploration grows monotonically, resets clear it -/

/-- C9: one exploration update never removes a tile (the new explored set is
a superset of the old one), and the explicit resets (`regenerate_maze`,
`start_new_game`) clear the set entirely. -/
theorem claim_C9 :
    (∀ (W H R : ℤ) (pt : ℤ × ℤ) (explored : Finset (ℤ × ℤ)),
      explored ⊆ update_explored_tiles W H R pt explored) ∧
    (∀ explored : Finset (ℤ × ℤ),
      regenerate_maze_explored explored = ∅ ∧
        start_new_game_explored explored = ∅) := by
  refine ⟨?_, fun _ => ⟨rfl, rfl⟩⟩
  intro W H R pt explored
  exact Finset.subset_union_left

/-! ### Claim C10: persistence failures do not disturb the session end -/

/-- C10: `save_and_exit` reaches the result write and the exit for every
outcome of the persistence collaborator; the gameplay fields of the result
record do not depend on that outcome, the score is the computed score, and a
failing `save_game_progress` or `end_game_session` call only clears the
`saved_to_db` flag. -/
theorem claim_C10 :
    ∀ (auth : Bool) (save1 end1 save2 end2 : Except String Unit)
      (completed : Bool) (elapsed : ℤ) (ctime : ℚ) (tiles : ℕ)
      (pname msize : String),
      (coreResult (save_and_exit auth save1 end1 completed elapsed ctime
          tiles pname msize).1 =
        coreResult (save_and_exit auth save2 end2 completed elapsed ctime
          tiles pname msize).1) ∧
      ((save_and_exit auth save1 end1 completed elapsed ctime tiles pname
          msize).2 = true) ∧
      ((save_and_exit auth save1 end1 completed elapsed ctime tiles pname
          msize).1.score = calculate_score elapsed tiles) ∧
      (∀ msg : String,
        (save_and_exit auth (.error msg) end1 completed elapsed ctime tiles
          pname msize).1.saved_to_db = false) ∧
      (∀ msg : String,
        (save_and_exit auth (.ok ()) (.error msg) completed elapsed ctime
          tiles pname msize).1.saved_to_db = false) := by
  intro auth save1 end1 save2 end2 completed elapsed ctime tiles pname msize
  rcases auth <;> rcases save1 with e1 | u1 <;> rcases end1 with e2 | u2 <;>
    rcases save2 with e3 | u3 <;> rcases end2 with e4 | u4 <;>
      simp [save_and_exit, coreResult]

/-! ### Claim C2, counterexample part: 3×3 generation fails -/

/-- C2 counterexample: at `width = height = 3` (both at the claimed minimum)
the pipeline does not complete: `add_random_openings` evaluates
`random.randint(2, 0)` on an empty range, a `ValueError`. -/
theorem claim_C2_counterexample : generate_maze 3 3 rng0 = none := by decide

/-! ### Claim C1: what the win-condition percentage actually computes -/

theorem countP_floor_eq_sum_range (row : List Char) :
    (row.countP (fun c => c == '.')) =
      ∑ x ∈ Finset.range row.length, if row.getD x '#' == '.' then 1 else 0 := by
  induction row with
  | nil => simp
  | cons c t ih =>
    rw [List.countP_cons, List.length_cons, Finset.sum_range_succ', ih]
    simp only [List.getD_cons_succ, List.getD_cons_zero]

theorem total_explorable_eq_sum (g : Grid) :
    total_explorable g =
      ∑ y ∈ Finset.range g.length, (g.getD y []).countP (fun c => c == '.') := by
  induction g with
  | nil => simp [total_explorable]
  | cons row t ih =>
    show (row.countP (fun c => c == '.')) + total_explorable t = _
    rw [List.length_cons, Finset.sum_range_succ', ih]
    simp only [List.getD_cons_succ, List.getD_cons_zero]
    omega

theorem floorTiles_card {g : Grid} (wf : wellFormed g) :
    (floorTiles g).card = total_explorable g := by
  unfold floorTiles
  rw [Finset.card_image_of_injective _ (fun a b hab => by
    cases a; cases b
    simp only [Prod.mk.injEq] at hab ⊢
    exact ⟨by exact_mod_cast hab.1, by exact_mod_cast hab.2⟩)]
  rw [Finset.card_filter, Finset.sum_product_right, total_explorable_eq_sum]
  apply Finset.sum_congr rfl
  intro y hy
  rw [Finset.mem_range] at hy
  have hrow : g.getD y [] = g[y] := List.getD_eq_getElem g [] hy
  have hmem : g[y] ∈ g := List.getElem_mem hy
  have hlen : ((g[y] : List Char).length : ℤ) = MAP_WIDTH g := wf.1 _ hmem
  have hlen' : (g[y] : List Char).length = (g.headD []).length := by
    unfold MAP_WIDTH at hlen; exact_mod_cast hlen
  rw [countP_floor_eq_sum_range, hrow, hlen']
  apply Finset.sum_congr rfl
  intro x hx
  dsimp only
  rw [hrow]

/-- C1 (amended): the percentage the game computes is
`|explored| / |floorTiles|`; it decomposes as the spec's
`|explored ∩ floorTiles| / |floorTiles|` plus the contribution
`|explored \ floorTiles| / |floorTiles|` of the non-floor tiles the
exploration update also records, so tiles outside `floorTiles` do contribute
and the value can exceed 1. -/
theorem claim_C1 (g : Grid) (explored : Finset (ℤ × ℤ)) (wf : wellFormed g)
    (hpos : 0 < total_explorable g) :
    exploration_percentage g explored =
      exploration_percentage_spec g explored +
        ((explored \ floorTiles g).card : ℚ) / ((floorTiles g).card : ℚ) := by
  unfold exploration_percentage exploration_percentage_spec
  rw [if_pos hpos, floorTiles_card wf, div_add_div_same]
  congr 1
  rw [show explored.card =
    (explored ∩ floorTiles g).card + (explored \ floorTiles g).card from
      (Finset.card_inter_add_card_sdiff explored (floorTiles g)).symm]
  push_cast
  ring

/-- C1 witness: the decomposition on the 3×3 one-floor grid after one
exploration update. -/
theorem claim_C1_witness :
    exploration_percentage mapG0 exploredG0 =
      exploration_percentage_spec mapG0 exploredG0 +
        ((exploredG0 \ floorTiles mapG0).card : ℚ) /
          ((floorTiles mapG0).card : ℚ) :=
  claim_C1 mapG0 exploredG0 (by decide) (by decide)

/-- C1 counterexample: on the 3×3 grid with a single floor cell, one
exploration update from the centre marks all nine tiles, so the game's
percentage is `9 / 1 = 9`: it exceeds 1, differs from the spec's
`|explored ∩ floorTiles| / |floorTiles| = 1`, and its numerator counts the
wall tile `(0, 0)`. -/
theorem claim_C1_counterexample :
    exploration_percentage mapG0 exploredG0 = 9 ∧
    1 < exploration_percentage mapG0 exploredG0 ∧
    exploration_percentage mapG0 exploredG0 ≠
      exploration_percentage_spec mapG0 exploredG0 ∧
    ((0 : ℤ), (0 : ℤ)) ∈ exploredG0 ∧
    ((0 : ℤ), (0 : ℤ)) ∉ floorTiles mapG0 := by
  have hc : exploredG0.card = 9 := by decide
  have ht : total_explorable mapG0 = 1 := by decide
  have hpct : exploration_percentage mapG0 exploredG0 = 9 := by
    unfold exploration_percentage
    rw [hc, ht]
    norm_num
  have hinter : (exploredG0 ∩ floorTiles mapG0).card = 1 := by decide
  have hf : (floorTiles mapG0).card = 1 := by decide
  have hspec : exploration_percentage_spec mapG0 exploredG0 = 1 := by
    unfold exploration_percentage_spec
    rw [hinter, hf]
    norm_num
  refine ⟨hpct, ?_, ?_, by decide, by decide⟩
  · rw [hpct]; norm_num
  · rw [hpct, hspec]; norm_num

/-! ### Claim C6: the exploration update inserts exactly the in-range
in-bounds tiles -/

theorem sqrt_le_int_iff (dx dy R : ℤ) (hR : 0 ≤ R) :
    Real.sqrt ((dx : ℝ) ^ 2 + (dy : ℝ) ^ 2) ≤ (R : ℝ) ↔
      dx ^ 2 + dy ^ 2 ≤ R ^ 2 := by
  rw [show (R : ℝ) = Real.sqrt ((R : ℝ) ^ 2) by
    rw [Real.sqrt_sq (by exact_mod_cast hR)]]
  rw [Real.sqrt_le_sqrt_iff (by positivity)]
  constructor
  · intro hle; exact_mod_cast hle
  · intro hle; exact_mod_cast hle

/-- C6: the exploration update adds exactly the tiles
`playerTile + (dx, dy)` with `dx, dy ∈ [-R, R]`, `sqrt(dx² + dy²) ≤ R` and
the tile in bounds; concretely, with range 6 from `(10, 10)` on a 25×25 grid
it includes `(10, 16)` (distance exactly 6) and excludes `(10, 17)`
(distance 7). -/
theorem claim_C6 :
    (∀ (W H R : ℤ), 0 ≤ R →
      ∀ (pt : ℤ × ℤ) (explored : Finset (ℤ × ℤ)) (t : ℤ × ℤ),
      (t ∈ update_explored_tiles W H R pt explored ↔
        t ∈ explored ∨ ∃ dx dy : ℤ,
          -R ≤ dx ∧ dx ≤ R ∧ -R ≤ dy ∧ dy ≤ R ∧
          Real.sqrt ((dx : ℝ) ^ 2 + (dy : ℝ) ^ 2) ≤ (R : ℝ) ∧
          t = (pt.1 + dx, pt.2 + dy) ∧
          0 ≤ t.1 ∧ t.1 < W ∧ 0 ≤ t.2 ∧ t.2 < H)) ∧
    ((10, 16) ∈ update_explored_tiles 25 25 VISION_RANGE (10, 10) ∅) ∧
    ((10, 17) ∉ update_explored_tiles 25 25 VISION_RANGE (10, 10) ∅) := by
  refine ⟨?_, by decide, by decide⟩
  intro W H R hR pt explored t
  unfold update_explored_tiles
  rw [Finset.mem_union]
  apply or_congr Iff.rfl
  rw [Finset.mem_image]
  constructor
  · rintro ⟨⟨dx, dy⟩, hd, rfl⟩
    rw [Finset.mem_filter, Finset.mem_product, Finset.mem_Icc, Finset.mem_Icc] at hd
    obtain ⟨⟨⟨h1, h2⟩, h3, h4⟩, h5, h6, h7, h8, h9⟩ := hd
    exact ⟨dx, dy, h1, h2, h3, h4, (sqrt_le_int_iff dx dy R hR).mpr h9, rfl,
      h7, h8, h5, h6⟩
  · rintro ⟨dx, dy, h1, h2, h3, h4, h9, rfl, h5, h6, h7, h8⟩
    refine ⟨(dx, dy), ?_, rfl⟩
    rw [Finset.mem_filter, Finset.mem_product, Finset.mem_Icc, Finset.mem_Icc]
    exact ⟨⟨⟨h1, h2⟩, h3, h4⟩, h7, h8, h5, h6,
      (sqrt_le_int_iff dx dy R hR).mp h9⟩

/-- C6 witness: the characterisation instantiated at vision range 6, player
tile `(10, 10)` and tile `(10, 16)` on the 25×25 grid. -/
theorem claim_C6_witness :
    (10, 16) ∈ update_explored_tiles 25 25 VISION_RANGE (10, 10) ∅ ↔
      ((10, 16) : ℤ × ℤ) ∈ (∅ : Finset (ℤ × ℤ)) ∨ ∃ dx dy : ℤ,
        -VISION_RANGE ≤ dx ∧ dx ≤ VISION_RANGE ∧
        -VISION_RANGE ≤ dy ∧ dy ≤ VISION_RANGE ∧
        Real.sqrt ((dx : ℝ) ^ 2 + (dy : ℝ) ^ 2) ≤ (VISION_RANGE : ℝ) ∧
        ((10, 16) : ℤ × ℤ) = (((10, 10) : ℤ × ℤ).1 + dx, ((10, 10) : ℤ × ℤ).2 + dy) ∧
        0 ≤ (((10, 16) : ℤ × ℤ)).1 ∧ (((10, 16) : ℤ × ℤ)).1 < 25 ∧
        0 ≤ (((10, 16) : ℤ × ℤ)).2 ∧ (((10, 16) : ℤ × ℤ)).2 < 25 :=
  claim_C6.1 25 25 VISION_RANGE (by decide) (10, 10) ∅ (10, 16)

/-! ### Generator helper lemmas -/

theorem carveLoop_zero (w h : ℤ) (rng : ℕ → ℕ) (m : Finset (ℤ × ℤ))
    (stack : List (ℤ × ℤ)) (k : ℕ) :
    carveLoop w h rng 0 m stack k = none := rfl

theorem carveLoop_nil (w h : ℤ) (rng : ℕ → ℕ) (f : ℕ) (m : Finset (ℤ × ℤ))
    (k : ℕ) : carveLoop w h rng (f + 1) m [] k = some (m, k) := rfl

theorem carveLoop_cons (w h : ℤ) (rng : ℕ → ℕ) (f : ℕ) (m : Finset (ℤ × ℤ))
    (c : ℤ × ℤ) (rest : List (ℤ × ℤ)) (k : ℕ) :
    carveLoop w h rng (f + 1) m (c :: rest) k =
      match neighborsOf w h m c with
      | [] => carveLoop w h rng f m rest k
      | nb :: nbs =>
        carveLoop w h rng f
          (insert ((nb :: nbs).getD (rng k % (nb :: nbs).length) nb).2
            (insert ((nb :: nbs).getD (rng k % (nb :: nbs).length) nb).1 m))
          (((nb :: nbs).getD (rng k % (nb :: nbs).length) nb).1 :: c :: rest)
          (k + 1) := rfl

theorem getD_mem_of_mem {α : Type} {l : List α} (i : ℕ) {d : α} (hd : d ∈ l) :
    l.getD i d ∈ l := by
  rw [List.getD_eq_getElem?_getD]
  cases h : l[i]? with
  | none => simpa using hd
  | some a => simpa using List.getElem?_mem h

theorem mem_neighborsOf {w h : ℤ} {m : Finset (ℤ × ℤ)} {c : ℤ × ℤ}
    {nb : (ℤ × ℤ) × (ℤ × ℤ)} (hm : nb ∈ neighborsOf w h m c) :
    nb.1 ∈ rectZ w h ∧ nb.1 ∉ m ∧ Adj c nb.2 ∧ Adj nb.2 nb.1 := by
  unfold neighborsOf at hm
  rw [List.mem_filterMap] at hm
  obtain ⟨d, hd, hif⟩ := hm
  by_cases hcond : 0 < c.1 + d.1 ∧ c.1 + d.1 < w - 1 ∧ 0 < c.2 + d.2 ∧
      c.2 + d.2 < h - 1 ∧ (c.1 + d.1, c.2 + d.2) ∉ m
  · rw [if_pos hcond] at hif
    have hnb := (Option.some.inj hif).symm
    subst hnb
    simp only [directions, List.mem_cons, List.not_mem_nil, or_false] at hd
    rcases hd with rfl | rfl | rfl | rfl <;>
      dsimp only at hcond ⊢ <;>
      refine ⟨?_, hcond.2.2.2.2, ?_, ?_⟩ <;>
      first
        | (unfold rectZ
           rw [Finset.mem_product, Finset.mem_Icc, Finset.mem_Icc]
           dsimp only
           omega)
        | (norm_num [Adj] <;> omega)
  · rw [if_neg hcond] at hif
    exact absurd hif (by simp)

theorem wallsIn_insert_lt {w h : ℤ} {m : Finset (ℤ × ℤ)} {p : ℤ × ℤ}
    (b : ℤ × ℤ) (hp : p ∈ rectZ w h) (hpm : p ∉ m) :
    wallsIn w h (insert b (insert p m)) < wallsIn w h m := by
  apply Finset.card_lt_card
  rw [Finset.ssubset_def]
  constructor
  · intro q hq
    rw [Finset.mem_filter] at hq ⊢
    exact ⟨hq.1, fun hqm =>
      hq.2 (Finset.mem_insert_of_mem (Finset.mem_insert_of_mem hqm))⟩
  · intro hsub
    have hpw : p ∈ (rectZ w h).filter (fun q => q ∉ m) :=
      Finset.mem_filter.mpr ⟨hp, hpm⟩
    have := hsub hpw
    rw [Finset.mem_filter] at this
    exact this.2 (Finset.mem_insert_of_mem (Finset.mem_insert_self p m))

theorem wallsIn_le (w h : ℤ) (m : Finset (ℤ × ℤ)) :
    wallsIn w h m ≤ w.toNat * h.toNat := by
  unfold wallsIn
  calc ((rectZ w h).filter (fun p => p ∉ m)).card
      ≤ (rectZ w h).card := Finset.card_filter_le _ _
    _ = w.toNat * h.toNat := by
        unfold rectZ
        rw [Finset.card_product, Int.card_Icc, Int.card_Icc]
        congr 1 <;> omega

theorem carveLoop_isSome (w h : ℤ) (rng : ℕ → ℕ) :
    ∀ (fuel : ℕ) (m : Finset (ℤ × ℤ)) (stack : List (ℤ × ℤ)) (k : ℕ),
      2 * wallsIn w h m + stack.length < fuel →
      (carveLoop w h rng fuel m stack k).isSome = true := by
  intro fuel
  induction fuel with
  | zero => intro m stack k hlt; exact absurd hlt (by omega)
  | succ f ih =>
    intro m stack k hlt
    cases stack with
    | nil => rw [carveLoop_nil]; rfl
    | cons c rest =>
      rw [carveLoop_cons]
      cases hn : neighborsOf w h m c with
      | nil =>
        exact ih m rest k (by simp only [List.length_cons] at hlt; omega)
      | cons nb nbs =>
        have hchm : (nb :: nbs).getD (rng k % (nb :: nbs).length) nb ∈
            neighborsOf w h m c := by
          rw [hn]
          exact getD_mem_of_mem _ (List.mem_cons_self nb nbs)
        have hprop := mem_neighborsOf hchm
        have hlt2 := wallsIn_insert_lt
          ((nb :: nbs).getD (rng k % (nb :: nbs).length) nb).2 hprop.1 hprop.2.1
        apply ih
        have hlen2 : ((((nb :: nbs).getD (rng k % (nb :: nbs).length) nb).1) ::
            c :: rest).length = rest.length + 2 := by simp
        rw [hlen2]
        simp only [List.length_cons] at hlt
        omega

theorem reach_mono {m m' : Finset (ℤ × ℤ)} (hsub : m ⊆ m') {a b : ℤ × ℤ}
    (h : ReachableIn m a b) : ReachableIn m' a b :=
  Relation.ReflTransGen.mono (fun _ _ hpq => ⟨hpq.1, hsub hpq.2⟩) h

theorem carveLoop_inv (w h : ℤ) (rng : ℕ → ℕ) :
    ∀ (fuel : ℕ) (m : Finset (ℤ × ℤ)) (stack : List (ℤ × ℤ)) (k : ℕ)
      (mk : Finset (ℤ × ℤ) × ℕ),
      carveLoop w h rng fuel m stack k = some mk →
      (1, 1) ∈ m → (∀ c ∈ stack, c ∈ m) →
      (∀ p ∈ m, ReachableIn m (1, 1) p) →
      ((1, 1) ∈ mk.1 ∧ ∀ p ∈ mk.1, ReachableIn mk.1 (1, 1) p) := by
  intro fuel
  induction fuel with
  | zero =>
    intro m stack k mk heq
    rw [carveLoop_zero] at heq
    exact absurd heq (by simp)
  | succ f ih =>
    intro m stack k mk heq h11 hstack hreach
    cases stack with
    | nil =>
      rw [carveLoop_nil] at heq
      obtain rfl : (m, k) = mk := Option.some.inj heq
      exact ⟨h11, hreach⟩
    | cons c rest =>
      rw [carveLoop_cons] at heq
      cases hn : neighborsOf w h m c with
      | nil =>
        rw [hn] at heq
        exact ih m rest k mk heq h11
          (fun x hx => hstack x (List.mem_cons_of_mem c hx)) hreach
      | cons nb nbs =>
        rw [hn] at heq
        dsimp only at heq
        have hchm : (nb :: nbs).getD (rng k % (nb :: nbs).length) nb ∈
            neighborsOf w h m c := by
          rw [hn]
          exact getD_mem_of_mem _ (List.mem_cons_self nb nbs)
        have hprop := mem_neighborsOf hchm
        set chosen := (nb :: nbs).getD (rng k % (nb :: nbs).length) nb with hcho
        have hsub : m ⊆ insert chosen.2 (insert chosen.1 m) := fun q hq =>
          Finset.mem_insert_of_mem (Finset.mem_insert_of_mem hq)
        have hcm : c ∈ m := hstack c (List.mem_cons_self c rest)
        have hreach_c : ReachableIn (insert chosen.2 (insert chosen.1 m)) (1, 1) c :=
          reach_mono hsub (hreach c hcm)
        have hbmem : chosen.2 ∈ insert chosen.2 (insert chosen.1 m) :=
          Finset.mem_insert_self _ _
        have hnmem : chosen.1 ∈ insert chosen.2 (insert chosen.1 m) :=
          Finset.mem_insert_of_mem (Finset.mem_insert_self _ _)
        have hreach_b : ReachableIn (insert chosen.2 (insert chosen.1 m)) (1, 1)
            chosen.2 := Relation.ReflTransGen.tail hreach_c ⟨hprop.2.2.1, hbmem⟩
        have hreach_n : ReachableIn (insert chosen.2 (insert chosen.1 m)) (1, 1)
            chosen.1 := Relation.ReflTransGen.tail hreach_b ⟨hprop.2.2.2, hnmem⟩
        apply ih _ _ _ _ heq (hsub h11)
        · intro x hx
          rcases List.mem_cons.mp hx with rfl | hx2
          · exact hnmem
          · rcases List.mem_cons.mp hx2 with rfl | hx3
            · exact hsub hcm
            · exact hsub (hstack x (List.mem_cons_of_mem c hx3))
        · intro p hp
          rcases Finset.mem_insert.mp hp with rfl | hp2
          · exact hreach_b
          · rcases Finset.mem_insert.mp hp2 with rfl | hp3
            · exact hreach_n
            · exact reach_mono hsub (hreach p hp3)

theorem create_starting_area_inv {w h : ℤ} {m : Finset (ℤ × ℤ)}
    (h11 : (1, 1) ∈ m) (hreach : ∀ p ∈ m, ReachableIn m (1, 1) p) :
    (1, 1) ∈ create_starting_area w h m ∧
      ∀ p ∈ create_starting_area w h m,
        ReachableIn (create_starting_area w h m) (1, 1) p := by
  have hsub : m ⊆ create_starting_area w h m := Finset.subset_union_left
  refine ⟨hsub h11, ?_⟩
  intro p hp
  rcases Finset.mem_union.mp hp with hpm | hps
  · exact reach_mono hsub (hreach p hpm)
  · rw [startCells, Finset.mem_filter, Finset.mem_product, Finset.mem_Icc,
      Finset.mem_Icc] at hps
    obtain ⟨⟨⟨hx0, hx2⟩, hy0, hy2⟩, ⟨hbx, hbw, hby, hbh⟩, hnb⟩ := hps
    push_neg at hnb
    obtain ⟨hne1, hne2, hne3, hne4⟩ := hnb
    have hx : p.1 = 1 ∨ p.1 = 2 := by omega
    have hy : p.2 = 1 ∨ p.2 = 2 := by omega
    rcases hx with hx1 | hx1 <;> rcases hy with hy1 | hy1
    · have hpeq : p = ((1 : ℤ), (1 : ℤ)) := by
        rw [show p = (p.1, p.2) from rfl, hx1, hy1]
      rw [hpeq]
      exact Relation.ReflTransGen.refl
    · exact Relation.ReflTransGen.single ⟨by unfold Adj; dsimp only; omega, hp⟩
    · exact Relation.ReflTransGen.single ⟨by unfold Adj; dsimp only; omega, hp⟩
    · have h21 : ((2 : ℤ), (1 : ℤ)) ∈ create_starting_area w h m := by
        apply Finset.mem_union_right
        rw [startCells, Finset.mem_filter, Finset.mem_product, Finset.mem_Icc,
          Finset.mem_Icc]
        dsimp only
        refine ⟨⟨⟨by omega, by omega⟩, by omega, by omega⟩,
          ⟨by omega, by omega, by omega, by omega⟩, ?_⟩
        push_neg
        exact ⟨by omega, by omega, by omega, by omega⟩
      have step1 : ReachableIn (create_starting_area w h m) (1, 1) (2, 1) :=
        Relation.ReflTransGen.single ⟨by unfold Adj; dsimp only; omega, h21⟩
      exact Relation.ReflTransGen.tail step1
        ⟨by unfold Adj; dsimp only; omega, hp⟩

theorem openingStep_isSome (w h : ℤ) (rng : ℕ → ℕ) (m : Finset (ℤ × ℤ))
    (k : ℕ) (hw : 2 ≤ w - 3) (hh : 2 ≤ h - 3) :
    (openingStep w h rng m k).isSome = true := by
  unfold openingStep
  rw [if_pos ⟨hw, hh⟩]
  split_ifs <;> rfl

theorem openingStep_inv {w h : ℤ} {rng : ℕ → ℕ} {m : Finset (ℤ × ℤ)} {k : ℕ}
    {mk : Finset (ℤ × ℤ) × ℕ} (heq : openingStep w h rng m k = some mk)
    (h11 : (1, 1) ∈ m) (hreach : ∀ p ∈ m, ReachableIn m (1, 1) p) :
    (1, 1) ∈ mk.1 ∧ ∀ p ∈ mk.1, ReachableIn mk.1 (1, 1) p := by
  unfold openingStep at heq
  by_cases hc : 2 ≤ w - 3 ∧ 2 ≤ h - 3
  case neg =>
    rw [if_neg hc] at heq
    exact absurd heq (by simp)
  rw [if_pos hc] at heq
  set x := randintDraw 2 (w - 3) (rng k) with hxdef
  set y := randintDraw 2 (h - 3) (rng (k + 1)) with hydef
  by_cases hxy : (x, y) ∉ m
  · rw [if_pos hxy] at heq
    by_cases hadj : 2 ≤ adjacent_dirs.countP (fun d =>
        decide ((x + d.1, y + d.2) ∈ m))
    · rw [if_pos hadj] at heq
      by_cases hr : rng (k + 2) % 10 < 3
      · rw [if_pos hr] at heq
        obtain rfl : (insert (x, y) m, k + 3) = mk := Option.some.inj heq
        have hpos : 0 < adjacent_dirs.countP (fun d =>
            decide ((x + d.1, y + d.2) ∈ m)) := by omega
        obtain ⟨d, hd, hdm⟩ := List.countP_pos_iff.mp hpos
        have hdmem : (x + d.1, y + d.2) ∈ m := of_decide_eq_true hdm
        have hsub : m ⊆ insert (x, y) m := Finset.subset_insert _ _
        have hq : ReachableIn (insert (x, y) m) (1, 1) (x + d.1, y + d.2) :=
          reach_mono hsub (hreach _ hdmem)
        have hAdj : Adj (x + d.1, y + d.2) (x, y) := by
          simp only [adjacent_dirs, List.mem_cons, List.not_mem_nil,
            or_false] at hd
          rcases hd with rfl | rfl | rfl | rfl <;> (unfold Adj; dsimp only; omega)
        refine ⟨Finset.mem_insert_of_mem h11, ?_⟩
        intro p hp
        rcases Finset.mem_insert.mp hp with rfl | hp2
        · exact Relation.ReflTransGen.tail hq ⟨hAdj, Finset.mem_insert_self _ _⟩
        · exact reach_mono hsub (hreach p hp2)
      · rw [if_neg hr] at heq
        obtain rfl : (m, k + 3) = mk := Option.some.inj heq
        exact ⟨h11, hreach⟩
    · rw [if_neg hadj] at heq
      obtain rfl : (m, k + 2) = mk := Option.some.inj heq
      exact ⟨h11, hreach⟩
  · rw [if_neg hxy] at heq
    obtain rfl : (m, k + 2) = mk := Option.some.inj heq
    exact ⟨h11, hreach⟩

theorem add_random_openings_succ (w h : ℤ) (rng : ℕ → ℕ) (n : ℕ)
    (m : Finset (ℤ × ℤ)) (k : ℕ) :
    add_random_openings w h rng (n + 1) m k =
      match openingStep w h rng m k with
      | none => none
      | some (m', k') => add_random_openings w h rng n m' k' := rfl

theorem add_random_openings_isSome (w h : ℤ) (rng : ℕ → ℕ) (hw : 2 ≤ w - 3)
    (hh : 2 ≤ h - 3) :
    ∀ (n : ℕ) (m : Finset (ℤ × ℤ)) (k : ℕ),
      (add_random_openings w h rng n m k).isSome = true := by
  intro n
  induction n with
  | zero => intro m k; rfl
  | succ n ih =>
    intro m k
    rw [add_random_openings_succ]
    have hs := openingStep_isSome w h rng m k hw hh
    cases ho : openingStep w h rng m k with
    | none => rw [ho] at hs; exact absurd hs (by simp)
    | some mk =>
      obtain ⟨m', k'⟩ := mk
      exact ih m' k'

theorem add_random_openings_inv (w h : ℤ) (rng : ℕ → ℕ) :
    ∀ (n : ℕ) (m : Finset (ℤ × ℤ)) (k : ℕ) (mk : Finset (ℤ × ℤ) × ℕ),
      add_random_openings w h rng n m k = some mk →
      (1, 1) ∈ m → (∀ p ∈ m, ReachableIn m (1, 1) p) →
      ((1, 1) ∈ mk.1 ∧ ∀ p ∈ mk.1, ReachableIn mk.1 (1, 1) p) := by
  intro n
  induction n with
  | zero =>
    intro m k mk heq h11 hreach
    obtain rfl : (m, k) = mk := Option.some.inj heq
    exact ⟨h11, hreach⟩
  | succ n ih =>
    intro m k mk heq h11 hreach
    rw [add_random_openings_succ] at heq
    cases ho : openingStep w h rng m k with
    | none => rw [ho] at heq; exact absurd heq (by simp)
    | some mk1 =>
      obtain ⟨m', k'⟩ := mk1
      rw [ho] at heq
      dsimp only at heq
      have hstep := openingStep_inv ho h11 hreach
      exact ih m' k' mk heq hstep.1 hstep.2

theorem add_random_openings_some_dims {w h : ℤ} {rng : ℕ → ℕ} {n : ℕ}
    {m : Finset (ℤ × ℤ)} {k : ℕ} {mk : Finset (ℤ × ℤ) × ℕ}
    (heq : add_random_openings w h rng (n + 1) m k = some mk) :
    2 ≤ w - 3 ∧ 2 ≤ h - 3 := by
  rw [add_random_openings_succ] at heq
  by_cases hc : 2 ≤ w - 3 ∧ 2 ≤ h - 3
  · exact hc
  · have hnone : openingStep w h rng m k = none := by
      unfold openingStep
      rw [if_neg hc]
    rw [hnone] at heq
    exact absurd heq (by simp)

theorem intRange_cons {lo hi : ℤ} (hlt : lo < hi) :
    intRange lo hi = lo :: intRange (lo + 1) hi := by
  unfold intRange
  obtain ⟨n, hn⟩ : ∃ n, (hi - lo).toNat = n + 1 :=
    ⟨(hi - lo).toNat - 1, by omega⟩
  have hn2 : (hi - (lo + 1)).toNat = n := by omega
  rw [hn, hn2, List.range_succ_eq_map, List.map_cons, List.map_map]
  congr 1
  · norm_num
  · apply List.map_congr_left
    intro i _
    simp only [Function.comp_apply]
    push_cast
    ring

theorem get_spawn_position_eq {w h : ℤ} {m : Finset (ℤ × ℤ)} (hw : 3 ≤ w)
    (hh : 3 ≤ h) (h11 : (1, 1) ∈ m) : get_spawn_position w h m = (1, 1) := by
  unfold get_spawn_position
  rw [intRange_cons (by omega : (1 : ℤ) < min 4 (h - 1)),
    intRange_cons (by omega : (1 : ℤ) < min 4 (w - 1)),
    List.flatMap_cons, List.map_cons, List.cons_append,
    List.find?_cons_of_pos _ (by simp only [decide_eq_true_eq]; exact h11)]

/-! ### Claims C2 and C5: the generation pipeline -/

/-- C2 (amended): for requested `width, height ≥ 4` (odd-coerced dimensions
`≥ 5`) the full pipeline — odd-coercion, carve loop, starting-area clearing
and random extra openings — completes and returns a grid for every random
oracle; at `width = 3` or `height = 3` it instead fails in
`add_random_openings` (`random.randint` on the empty range `[2, 0]`), see the
counterexample. -/
theorem claim_C2 (width height : ℤ) (rng : ℕ → ℕ) (hw : 4 ≤ width)
    (hh : 4 ≤ height) : (generate_maze width height rng).isSome = true := by
  have hw5 : 5 ≤ coerceOdd width := by
    unfold coerceOdd
    rcases Int.emod_two_eq width with he | he
    · rw [if_neg (by omega)]; omega
    · rw [if_pos he]; omega
  have hh5 : 5 ≤ coerceOdd height := by
    unfold coerceOdd
    rcases Int.emod_two_eq height with he | he
    · rw [if_neg (by omega)]; omega
    · rw [if_pos he]; omega
  simp only [generate_maze]
  have hbound : 2 * wallsIn (coerceOdd width) (coerceOdd height) {(1, 1)} +
      ([((1 : ℤ), (1 : ℤ))] : List (ℤ × ℤ)).length <
      carveFuel (coerceOdd width) (coerceOdd height) := by
    have hle := wallsIn_le (coerceOdd width) (coerceOdd height) {(1, 1)}
    unfold carveFuel
    simp only [List.length_cons, List.length_nil]
    omega
  have hcs := carveLoop_isSome (coerceOdd width) (coerceOdd height) rng
    (carveFuel (coerceOdd width) (coerceOdd height)) {(1, 1)} [(1, 1)] 0 hbound
  cases hcl : carveLoop (coerceOdd width) (coerceOdd height) rng
      (carveFuel (coerceOdd width) (coerceOdd height)) {(1, 1)} [(1, 1)] 0 with
  | none => rw [hcl] at hcs; exact absurd hcs (by simp)
  | some mk =>
    obtain ⟨m1, k1⟩ := mk
    have hos := add_random_openings_isSome (coerceOdd width) (coerceOdd height)
      rng (by omega) (by omega)
      (num_openings (coerceOdd width) (coerceOdd height))
      (create_starting_area (coerceOdd width) (coerceOdd height) m1) k1
    cases hoo : add_random_openings (coerceOdd width) (coerceOdd height) rng
        (num_openings (coerceOdd width) (coerceOdd height))
        (create_starting_area (coerceOdd width) (coerceOdd height) m1) k1 with
    | none => rw [hoo] at hos; exact absurd hos (by simp)
    | some mk2 =>
      obtain ⟨m2, k2⟩ := mk2
      dsimp only
      rw [hoo]
      rfl

/-- C2 witness: generation from requested dimensions 4×4 (coerced to 5×5)
succeeds under the all-zero oracle. -/
theorem claim_C2_witness :
    (4 : ℤ) ≤ 4 ∧ (generate_maze 4 4 rng0).isSome = true :=
  ⟨by norm_num, claim_C2 4 4 rng0 (by norm_num) (by norm_num)⟩

/-- C5: every floor cell of a successfully generated maze is reachable from
the spawn tile by a path of orthogonally adjacent floor cells (the carve
loop, the starting-area clearing and each extra opening all preserve
connectedness to `(1, 1)`, which is the spawn tile). -/
theorem claim_C5 (width height : ℤ) (rng : ℕ → ℕ) (m : Finset (ℤ × ℤ))
    (hgen : generate_maze width height rng = some m) :
    get_spawn_position (coerceOdd width) (coerceOdd height) m ∈ m ∧
      ∀ p ∈ m, ReachableIn m
        (get_spawn_position (coerceOdd width) (coerceOdd height) m) p := by
  simp only [generate_maze] at hgen
  cases hcl : carveLoop (coerceOdd width) (coerceOdd height) rng
      (carveFuel (coerceOdd width) (coerceOdd height)) {(1, 1)} [(1, 1)] 0 with
  | none => rw [hcl] at hgen; exact absurd hgen (by simp)
  | some mk1 =>
    obtain ⟨m1, k1⟩ := mk1
    rw [hcl] at hgen
    dsimp only at hgen
    cases hoo : add_random_openings (coerceOdd width) (coerceOdd height) rng
        (num_openings (coerceOdd width) (coerceOdd height))
        (create_starting_area (coerceOdd width) (coerceOdd height) m1) k1 with
    | none => rw [hoo] at hgen; exact absurd hgen (by simp)
    | some mk2 =>
      obtain ⟨m2, k2⟩ := mk2
      rw [hoo] at hgen
      dsimp only at hgen
      obtain rfl : m2 = m := Option.some.inj hgen
      have hinv1 := carveLoop_inv (coerceOdd width) (coerceOdd height) rng
        _ _ _ _ _ hcl (Finset.mem_singleton_self _)
        (by
          intro c hc
          rw [List.mem_singleton] at hc
          subst hc
          exact Finset.mem_singleton_self _)
        (by
          intro p hp
          rw [Finset.mem_singleton] at hp
          subst hp
          exact Relation.ReflTransGen.refl)
      have hinv2 := @create_starting_area_inv (coerceOdd width)
        (coerceOdd height) _ hinv1.1 hinv1.2
      have hinv3 := add_random_openings_inv (coerceOdd width)
        (coerceOdd height) rng _ _ _ _ hoo hinv2.1 hinv2.2
      obtain ⟨n', hn'⟩ : ∃ n', num_openings (coerceOdd width)
          (coerceOdd height) = n' + 1 :=
        ⟨num_openings (coerceOdd width) (coerceOdd height) - 1, by
          unfold num_openings
          omega⟩
      rw [hn'] at hoo
      have hdims := add_random_openings_some_dims hoo
      rw [get_spawn_position_eq (by omega) (by omega) hinv3.1]
      exact ⟨hinv3.1, hinv3.2⟩

/-- C5 witness: the maze generated from requested dimensions 4×4 under the
all-zero oracle, whose floor set is the whole interior, with every floor
cell reachable from the spawn tile. -/
theorem claim_C5_witness :
    generate_maze 4 4 rng0 = some m4 ∧
      (get_spawn_position (coerceOdd 4) (coerceOdd 4) m4 ∈ m4 ∧
        ∀ p ∈ m4, ReachableIn m4
          (get_spawn_position (coerceOdd 4) (coerceOdd 4) m4) p) := by
  have h2 : (generate_maze 4 4 rng0).getD ∅ = m4 :=
    Finset.Subset.antisymm (by decide) (by decide)
  have hs : (generate_maze 4 4 rng0).isSome = true := by decide
  have hgen : generate_maze 4 4 rng0 = some m4 := by
    cases ho : generate_maze 4 4 rng0 with
    | none => rw [ho] at hs; exact absurd hs (by simp)
    | some v =>
      rw [ho] at h2
      rw [show v = m4 from by simpa using h2]
  exact ⟨hgen, claim_C5 4 4 rng0 m4 hgen⟩
